import Mathlib

/-!
# go-tigertonic: first-write-wins handler chains and the `If` guard

A shallow embedding of `middleware.go` and a verification of its documented
behaviour.

Modelling conventions.

* Stateful Go code is written in state-passing style: a method that mutates a
  writer takes the writer's state and returns the new state.
* The `http.ResponseWriter` interface is a type class over writer states.
  `Header()` returns a reference to the writer's mutable header map; in
  state-passing form this is a getter (`Header`) together with `HeaderApply`,
  one mutation made through the returned map.
* An `http.Header` map is an association list whose order is the order in which
  `range` visits the entries. The methods `Set`, `Add`, `Del` and `Get` put their
  key into canonical form with `CanonicalMIMEHeaderKey`, as net/http does;
  `Header.values` is the plain map lookup.
* Body bytes are modelled by the strings whose bytes are written.
* `Event` is a ghost log of invocations; it has no counterpart in the source.
-/

namespace http

/-- The type `http.Header`, a `map[string][]string`, as an association list. -/
abbrev Header := List (String × List String)

/-- Map lookup `h[key]`: the values stored under `key`, empty when absent. -/
def Header.values : Header → String → List String
  | [], _ => []
  | (k, vs) :: rest, key => if k = key then vs else Header.values rest key

/-- The bytes allowed in a header field name (`validHeaderFieldByte` of
net/textproto): ASCII letters, digits and the token punctuation, given here by
its character codes. -/
def validHeaderFieldByte (c : Char) : Bool :=
  c.isAlphanum ||
    [33, 35, 36, 37, 38, 39, 42, 43, 45, 46, 94, 95, 96, 124, 126].contains c.toNat

/-- The letter-case pass of `CanonicalMIMEHeaderKey`: the first letter and every
letter after a hyphen become upper case, all other letters lower case. -/
def canonicalMIMEHeaderKey : Bool → List Char → List Char
  | _, [] => []
  | upper, c :: rest =>
      let c := if upper then c.toUpper else c.toLower
      c :: canonicalMIMEHeaderKey (c = '-') rest

/-- The function `textproto.CanonicalMIMEHeaderKey`: the canonical form of a
header key; a key that holds a space or another byte that is not allowed in a
field name is returned as it is. -/
def CanonicalMIMEHeaderKey (s : String) : String :=
  if s.toList.all validHeaderFieldByte then String.mk (canonicalMIMEHeaderKey true s.toList)
  else s

/-- `Header.Get`: the first value stored under the canonical form of `key`, or
the empty string. -/
def Header.Get (h : Header) (key : String) : String :=
  (Header.values h (CanonicalMIMEHeaderKey key)).headD ""

/-- `Header.Del`: remove the canonical form of `key` from the map. -/
def Header.Del (h : Header) (key : String) : Header :=
  h.filter (fun e => decide (e.1 ≠ CanonicalMIMEHeaderKey key))

/-- `Header.Set`: replace whatever is stored under the canonical form of `key`
by the single `value`. -/
def Header.Set (h : Header) (key value : String) : Header :=
  (CanonicalMIMEHeaderKey key, [value]) :: Header.Del h key

/-- `Header.Add`: append `value` to the values stored under the canonical form
of `key`. -/
def Header.Add (h : Header) (key value : String) : Header :=
  (CanonicalMIMEHeaderKey key, Header.values h (CanonicalMIMEHeaderKey key) ++ [value])
    :: Header.Del h key

/-- A mutation of a header map through the `http.Header` methods. -/
inductive HeaderOp where
  | Set (key value : String)
  | Add (key value : String)
  | Del (key : String)
deriving DecidableEq, Repr

/-- The effect of a header mutation on a header map. -/
def HeaderOp.apply : HeaderOp → Header → Header
  | .Set key value, h => Header.Set h key value
  | .Add key value, h => Header.Add h key value
  | .Del key, h => Header.Del h key

/-- The part of `http.Request` that handlers and predicates may inspect. -/
structure Request where
  Method : String
  URL : String
  Header : Header
deriving DecidableEq, Repr

/-- The constant `http.StatusInternalServerError`. -/
def StatusInternalServerError : Int := 500

/-- The interface `http.ResponseWriter` over writer states `W`. -/
class ResponseWriter (W : Type) where
  /-- The header map that `Header()` returns. -/
  Header : W → Header
  /-- One mutation made through the map that `Header()` returns. -/
  HeaderApply : W → HeaderOp → W
  /-- The call `Write(p)`; its results are not used by this package. -/
  Write : W → String → W
  /-- The call `WriteHeader(status)`. -/
  WriteHeader : W → Int → W

/-- One call on an `http.ResponseWriter`. -/
inductive Call where
  | Header (op : HeaderOp)
  | Write (p : String)
  | WriteHeader (status : Int)
deriving DecidableEq, Repr

/-- Whether a call is a `WriteHeader` call. -/
def Call.isWriteHeader : Call → Bool
  | .WriteHeader _ => true
  | _ => false

/-- Make one call on a writer. -/
def Call.perform {W : Type} [ResponseWriter W] (w : W) : Call → W
  | .Header op => ResponseWriter.HeaderApply w op
  | .Write p => ResponseWriter.Write w p
  | .WriteHeader status => ResponseWriter.WriteHeader w status

/-- Make a sequence of calls on a writer, in order. -/
def perform {W : Type} [ResponseWriter W] (calls : List Call) (w : W) : W :=
  calls.foldl Call.perform w

/-- The header map after a sequence of calls: only header mutations change it. -/
def Call.header (h : http.Header) : Call → http.Header
  | .Header op => op.apply h
  | .Write _ => h
  | .WriteHeader _ => h

/-- The transport's response writer, modelled as a recorder: it keeps its header
map and the log of every call that reaches it. -/
structure Recorder where
  header : Header
  calls : List Call
deriving DecidableEq, Repr

instance : ResponseWriter Recorder where
  Header w := w.header
  HeaderApply w op := ⟨op.apply w.header, w.calls ++ [.Header op]⟩
  Write w p := ⟨w.header, w.calls ++ [.Write p]⟩
  WriteHeader w status := ⟨w.header, w.calls ++ [.WriteHeader status]⟩

/-- The status codes of the `WriteHeader` calls in a call log, in order. -/
def statuses : List Call → List Int
  | [] => []
  | .WriteHeader status :: rest => status :: statuses rest
  | _ :: rest => statuses rest

/-- The body bytes of a call log: the payloads of its `Write` calls, in order. -/
def body : List Call → String
  | [] => ""
  | .Write p :: rest => p ++ body rest
  | _ :: rest => body rest

/-- A writer honours the contract of `Header()`: the map it returns changes
exactly by the mutations made through it. -/
class LawfulResponseWriter (W : Type) [ResponseWriter W] : Prop where
  Header_HeaderApply : ∀ (w : W) (op : HeaderOp),
    ResponseWriter.Header (ResponseWriter.HeaderApply w op) = op.apply (ResponseWriter.Header w)
  Header_Write : ∀ (w : W) (p : String),
    ResponseWriter.Header (ResponseWriter.Write w p) = ResponseWriter.Header w
  Header_WriteHeader : ∀ (w : W) (status : Int),
    ResponseWriter.Header (ResponseWriter.WriteHeader w status) = ResponseWriter.Header w

instance : LawfulResponseWriter Recorder where
  Header_HeaderApply _ _ := rfl
  Header_Write _ _ := rfl
  Header_WriteHeader _ _ := rfl

end http

namespace tigertonic

/-- Modelled from the spec: the Go `error` values a guard predicate returns, with
the optional `HTTPEquivError` capability, whose declaration is not part of the
source file. A failure carries a message and may expose a status code. -/
inductive Err where
  | Plain (message : String)
  | WithStatus (message : String) (code : Int)
deriving DecidableEq, Repr

/-- The method `err.Error()`. -/
def Err.Error : Err → String
  | .Plain message => message
  | .WithStatus message _ => message

/-- The type assertion `err.(HTTPEquivError)` followed by `Status()`. -/
def Err.Status : Err → Option Int
  | .Plain _ => none
  | .WithStatus _ code => some code

/-- Modelled from the spec: `acceptJSON` is not part of the source file. The
spec's decision rule is to prefer the structured rendering when the request's
`Accept` header indicates acceptance of the structured media type, and plain
text otherwise; the header indicates it by naming `application/json`. -/
def acceptJSON (r : http.Request) : Bool :=
  decide ("application/json".toList <:+: (http.Header.Get r.Header "Accept").toList)

/-- Modelled from the spec: the escaping of one character inside a JSON string
(quotation mark, reverse solidus and line breaks are escaped). -/
def jsonEscape (c : Char) : List Char :=
  if c = '"' then ['\\', '"']
  else if c = '\\' then ['\\', '\\']
  else if c = '\n' then ['\\', 'n']
  else if c = '\r' then ['\\', 'r']
  else if c = '\t' then ['\\', 't']
  else [c]

/-- Modelled from the spec: the structured error payload, a single-field object
mapping `"error"` to the failure's message string. -/
def jsonError (message : String) : String :=
  "\x7b\"error\":\"" ++ String.mk (message.toList.flatMap jsonEscape) ++ "\"\x7d"

/-- Modelled from the spec: `writeJSONError` is not part of the source file. It
writes the failure serialised as the structured error payload. -/
def writeJSONError {W : Type} [http.ResponseWriter W] (w : W) (err : Err) : W :=
  http.ResponseWriter.Write w (jsonError err.Error)

/-- The call `fmt.Fprint(w, s)`: one `Write` of the bytes of `s`. -/
def Fprint {W : Type} [http.ResponseWriter W] (w : W) (s : String) : W :=
  http.ResponseWriter.Write w s

/-- The struct `firstResponseWriter`: an embedded `http.ResponseWriter` and the
`written` flag. -/
structure firstResponseWriter (W : Type) where
  ResponseWriter : W
  written : Bool
deriving DecidableEq, Repr

/-- The method `firstResponseWriter.WriteHeader` (lines 43-46). -/
def firstResponseWriter.WriteHeader {W : Type} [http.ResponseWriter W]
    (w : firstResponseWriter W) (status : Int) : firstResponseWriter W :=
  let w : firstResponseWriter W := ⟨w.ResponseWriter, true⟩
  ⟨http.ResponseWriter.WriteHeader w.ResponseWriter status, w.written⟩

/-- The methods of `firstResponseWriter`: `Header` and `Write` are promoted from
the embedded writer, `WriteHeader` is the method above. -/
instance {W : Type} [http.ResponseWriter W] : http.ResponseWriter (firstResponseWriter W) where
  Header w := http.ResponseWriter.Header w.ResponseWriter
  HeaderApply w op := ⟨http.ResponseWriter.HeaderApply w.ResponseWriter op, w.written⟩
  Write w p := ⟨http.ResponseWriter.Write w.ResponseWriter p, w.written⟩
  WriteHeader w status := firstResponseWriter.WriteHeader w status

/-- Ghost log of invocations: `ServeHTTP name r` records that the handler `name`
from outside the package was invoked with request `r`, and `check r` that the
predicate of an `ifHandler` was called with `r`. -/
inductive Event where
  | ServeHTTP (name : String) (r : http.Request)
  | check (r : http.Request)
deriving DecidableEq, Repr

/-- The values of the interface `http.Handler` that occur in this package: a
handler from outside the package, identified by a name and given by the calls
it makes on its writer as a function of the request and of the header map it
finds there (the results of `Write` are not observed); a `FirstHandler`; an
`ifHandler`. -/
inductive Handler where
  | HandlerFunc (name : String) (serve : http.Request → http.Header → List http.Call)
  | FirstHandler (handlers : List Handler)
  | ifHandler (f : http.Request → http.Header × Option Err)

/-- The type `FirstHandler`, a slice of handlers. -/
abbrev FirstHandler := List Handler

/-- The function `First` (lines 14-16). -/
def First (handlers : List Handler) : FirstHandler := handlers

/-- The method `ifHandler.ServeHTTP` (lines 50-74). -/
def ifHandler.ServeHTTP {W : Type} [http.ResponseWriter W]
    (ih : http.Request → http.Header × Option Err) (w : W) (r : http.Request) :
    W × List Event :=
  let (header, err) := ih r
  let w := header.foldl (fun w entry =>
    entry.2.foldl (fun w value =>
      http.ResponseWriter.HeaderApply w (.Set entry.1 value)) w) w
  match err with
  | none => (w, [Event.check r])
  | some err =>
    let description := err.Error
    let status := match err.Status with
      | some code => code
      | none => http.StatusInternalServerError
    if acceptJSON r then
      let w := http.ResponseWriter.HeaderApply w (.Set "Content-Type" "application/json")
      let w := http.ResponseWriter.WriteHeader w status
      (writeJSONError w err, [Event.check r])
    else
      let w := http.ResponseWriter.HeaderApply w (.Set "Content-Type" "text/plain")
      let w := http.ResponseWriter.WriteHeader w status
      (Fprint w description, [Event.check r])

mutual
/-- The call `h.ServeHTTP(w, r)` on an interface value `h`. The `FirstHandler`
case is the method `FirstHandler.ServeHTTP` (lines 20-28). -/
def Handler.ServeHTTP : Handler → {W : Type} → [http.ResponseWriter W] →
    W → http.Request → W × List Event
  | .HandlerFunc name serve, _, _, w, r =>
      (http.perform (serve r (http.ResponseWriter.Header w)) w, [Event.ServeHTTP name r])
  | .ifHandler f, _, _, w, r => ifHandler.ServeHTTP f w r
  | .FirstHandler fh, W, _, w, r =>
      let w0 : firstResponseWriter W := ⟨w, false⟩
      let out := FirstHandler.range fh w0 r
      (out.1.ResponseWriter, out.2)
/-- The loop of `FirstHandler.ServeHTTP` (lines 22-27) over the handlers that
remain, on the shared writer `w0`. -/
def FirstHandler.range : List Handler → {W : Type} → [http.ResponseWriter W] →
    firstResponseWriter W → http.Request → firstResponseWriter W × List Event
  | [], _, _, w0, _ => (w0, [])
  | h :: rest, _, _, w0, r =>
      let out := h.ServeHTTP w0 r
      if out.1.written then out
      else
        let out2 := FirstHandler.range rest out.1 r
        (out2.1, out.2 ++ out2.2)
end

/-- The method `FirstHandler.ServeHTTP` (lines 20-28). -/
def FirstHandler.ServeHTTP {W : Type} [http.ResponseWriter W]
    (fh : FirstHandler) (w : W) (r : http.Request) : W × List Event :=
  (Handler.FirstHandler fh).ServeHTTP w r

/-- The function `If` (lines 34-36). -/
def If (f : http.Request → http.Header × Option Err) (h : Handler) : FirstHandler :=
  First [Handler.ifHandler f, h]

/-! ## Definitions used to state and prove the properties -/

/-- The header sets of the loop of `ifHandler.ServeHTTP` (lines 52-56), as calls. -/
def ifHandler.headerCalls (header : http.Header) : List http.Call :=
  header.flatMap (fun entry => entry.2.map (fun value => http.Call.Header (.Set entry.1 value)))

/-- The calls that `ifHandler.ServeHTTP` makes on its writer, in order. -/
def ifHandler.calls (ih : http.Request → http.Header × Option Err) (r : http.Request) :
    List http.Call :=
  ifHandler.headerCalls (ih r).1 ++
    match (ih r).2 with
    | none => []
    | some err =>
      [http.Call.Header
         (.Set "Content-Type" (if acceptJSON r then "application/json" else "text/plain")),
       http.Call.WriteHeader (err.Status.getD http.StatusInternalServerError),
       http.Call.Write (if acceptJSON r then jsonError err.Error else err.Error)]

/-- The calls a handler makes on the writer it is given, read off a recorder
whose header map is `header`. -/
def Handler.calls (h : Handler) (r : http.Request) (header : http.Header) : List http.Call :=
  (h.ServeHTTP (⟨header, []⟩ : http.Recorder) r).1.calls

/-- The invocations that serving a handler gives rise to, on a writer whose
header map is `header`. -/
def Handler.events (h : Handler) (r : http.Request) (header : http.Header) : List Event :=
  (h.ServeHTTP (⟨header, []⟩ : http.Recorder) r).2

/-- The loop of `FirstHandler.ServeHTTP` run on a recorder whose header map is
`header`, with the flag initially `written`. -/
def FirstHandler.probe (fh : List Handler) (r : http.Request) (header : http.Header)
    (written : Bool) : firstResponseWriter http.Recorder × List Event :=
  FirstHandler.range fh (⟨⟨header, []⟩, written⟩ : firstResponseWriter http.Recorder) r

/-- Reference run: every handler of the list is served exactly once, in the
order of the list, directly on the writer; none is skipped. -/
def FirstHandler.serveEach : List Handler → http.Recorder → http.Request →
    http.Recorder × List Event
  | [], w, _ => (w, [])
  | h :: rest, w, r =>
      let out := h.ServeHTTP w r
      let out2 := FirstHandler.serveEach rest out.1 r
      (out2.1, out.2 ++ out2.2)

/-- The calls that the handler at position `i` (counted from 0) makes on the
writer it is given, when the handlers before it have each been served once. -/
def FirstHandler.callsAt : List Handler → http.Request → http.Recorder → Nat → List http.Call
  | [], _, _, _ => []
  | h :: _, r, w, 0 => h.calls r w.header
  | h :: rest, r, w, i + 1 => FirstHandler.callsAt rest r (h.ServeHTTP w r).1 i

/-- The value of `written` before the first and after each call of a sequence
made on a `firstResponseWriter`. -/
def firstResponseWriter.flags {W : Type} [http.ResponseWriter W] :
    firstResponseWriter W → List http.Call → List Bool
  | w, [] => [w.written]
  | w, c :: cs => w.written :: firstResponseWriter.flags (c.perform w) cs

/-- The number of places where a sequence of flag values changes from false to
true. -/
def rises : List Bool → Nat
  | false :: true :: rest => 1 + rises (true :: rest)
  | _ :: rest => rises rest
  | [] => 0

instance {W : Type} [http.ResponseWriter W] [http.LawfulResponseWriter W] :
    http.LawfulResponseWriter (firstResponseWriter W) where
  Header_HeaderApply w op := http.LawfulResponseWriter.Header_HeaderApply w.ResponseWriter op
  Header_Write w p := http.LawfulResponseWriter.Header_Write w.ResponseWriter p
  Header_WriteHeader w status := http.LawfulResponseWriter.Header_WriteHeader w.ResponseWriter status

/-! ## Sample inputs -/

/-- A request that declares the given `Accept` header. -/
def sample.request (accept : String) : http.Request :=
  ⟨"GET", "/", [("Accept", [accept])]⟩

/-- A fresh transport writer: no header, no call made yet. -/
def sample.fresh : http.Recorder := ⟨[], []⟩

/-- A handler that sets a header and does not commit. -/
def sample.tag : Handler :=
  .HandlerFunc "tag" (fun _ _ => [.Header (.Set "X-Tag" "1")])

/-- A handler that commits status 200 and writes a body. -/
def sample.ok : Handler :=
  .HandlerFunc "ok" (fun _ _ => [.WriteHeader 200, .Write "ok"])

/-- A handler that commits status 404 and writes a body. -/
def sample.notFound : Handler :=
  .HandlerFunc "notFound" (fun _ _ => [.WriteHeader 404, .Write "not found"])

/-- A handler that writes body bytes and never calls `WriteHeader`. -/
def sample.writer : Handler :=
  .HandlerFunc "writer" (fun _ _ => [.Write "partial"])

/-- A predicate that fails with status 429 and returns one header whose name is
not in canonical form. -/
def sample.throttled : http.Request → http.Header × Option Err :=
  fun _ => ([("retry-after", ["30"])], some (.WithStatus "rate limited" 429))

/-- A handler that sets `X-Tag` and then deletes it under another spelling. -/
def sample.untag : Handler :=
  .HandlerFunc "untag" (fun _ _ => [.Header (.Set "X-Tag" "1"), .Header (.Del "x-tag")])

/-- A predicate that passes and returns one header. -/
def sample.allow : http.Request → http.Header × Option Err :=
  fun _ => ([("X-RateLimit-Remaining", ["9"])], none)

/-- A predicate that fails with an explicit status and returns one header. -/
def sample.rateLimited : http.Request → http.Header × Option Err :=
  fun _ => ([("Retry-After", ["30"])], some (.WithStatus "rate limited" 429))

/-- A predicate that fails without a status. -/
def sample.broken : http.Request → http.Header × Option Err :=
  fun _ => ([], some (.Plain "boom"))

/-- A predicate that fails and returns a `Content-Type` header and a header with
two values. -/
def sample.typed : http.Request → http.Header × Option Err :=
  fun _ => ([("Content-Type", ["text/html"]), ("Retry-After", ["30", "60"])],
    some (.Plain "denied"))

end tigertonic

/-! ## Lemmas about writers and call sequences -/

namespace http

theorem perform_cons {W : Type} [ResponseWriter W] (c : Call) (cs : List Call) (w : W) :
    perform (c :: cs) w = perform cs (c.perform w) := rfl

theorem perform_append {W : Type} [ResponseWriter W] (a b : List Call) (w : W) :
    perform (a ++ b) w = perform b (perform a w) := by
  simp [perform, List.foldl_append]

/-- The header map of a lawful writer after a sequence of calls. -/
theorem Header_perform {W : Type} [ResponseWriter W] [LawfulResponseWriter W]
    (cs : List Call) (w : W) :
    ResponseWriter.Header (perform cs w) = cs.foldl Call.header (ResponseWriter.Header w) := by
  induction cs generalizing w with
  | nil => rfl
  | cons c cs ih =>
    rw [perform_cons, ih, List.foldl_cons]
    cases c with
    | Header op => simp only [Call.perform, Call.header, LawfulResponseWriter.Header_HeaderApply]
    | Write p => simp only [Call.perform, Call.header, LawfulResponseWriter.Header_Write]
    | WriteHeader s => simp only [Call.perform, Call.header, LawfulResponseWriter.Header_WriteHeader]

/-- A recorder appends every call it receives to its log. -/
theorem perform_Recorder (cs : List Call) (w : Recorder) :
    perform cs w = ⟨cs.foldl Call.header w.header, w.calls ++ cs⟩ := by
  induction cs generalizing w with
  | nil => simp [perform]
  | cons c cs ih =>
    rw [perform_cons, ih, List.foldl_cons]
    cases c <;> simp [Call.perform, Call.header, ResponseWriter.HeaderApply, ResponseWriter.Write,
      ResponseWriter.WriteHeader]

theorem statuses_append (a b : List Call) : statuses (a ++ b) = statuses a ++ statuses b := by
  induction a with
  | nil => rfl
  | cons c a ih => cases c <;> simp [statuses, ih]

theorem body_append (a b : List Call) : body (a ++ b) = body a ++ body b := by
  induction a with
  | nil => simp [body]
  | cons c a ih => cases c <;> simp [body, ih, String.append_assoc]

/-- A call sequence without a `WriteHeader` call commits no status. -/
theorem statuses_of_any_false (cs : List Call) (h : cs.any Call.isWriteHeader = false) :
    statuses cs = [] := by
  induction cs with
  | nil => rfl
  | cons c cs ih =>
    cases c <;> simp_all [statuses, Call.isWriteHeader]

/-- A `WriteHeader` call is in a sequence exactly when the sequence has a call
that `isWriteHeader` recognises. -/
theorem any_isWriteHeader_iff (cs : List Call) :
    cs.any Call.isWriteHeader = true ↔ ∃ status, Call.WriteHeader status ∈ cs := by
  constructor
  · intro h
    obtain ⟨c, hc, hw⟩ := List.any_eq_true.mp h
    cases c with
    | WriteHeader s => exact ⟨s, hc⟩
    | Header op => simp [Call.isWriteHeader] at hw
    | Write p => simp [Call.isWriteHeader] at hw
  · rintro ⟨s, hs⟩
    exact List.any_eq_true.mpr ⟨_, hs, rfl⟩

end http

namespace tigertonic
open http

/-- Calls made on a `firstResponseWriter` reach the embedded writer unchanged, and
the flag records whether one of them was `WriteHeader`. -/
theorem perform_firstResponseWriter {W : Type} [http.ResponseWriter W]
    (cs : List Call) (w : W) (b : Bool) :
    perform cs (⟨w, b⟩ : firstResponseWriter W) = ⟨perform cs w, b || cs.any Call.isWriteHeader⟩ := by
  induction cs generalizing w b with
  | nil => simp [perform]
  | cons c cs ih =>
    rw [perform_cons, perform_cons]
    cases c with
    | Header op =>
      show perform cs (⟨http.ResponseWriter.HeaderApply w op, b⟩ : firstResponseWriter W) = _
      rw [ih]; simp [Call.isWriteHeader, Call.perform]
    | Write p =>
      show perform cs (⟨http.ResponseWriter.Write w p, b⟩ : firstResponseWriter W) = _
      rw [ih]; simp [Call.isWriteHeader, Call.perform]
    | WriteHeader s =>
      show perform cs (⟨http.ResponseWriter.WriteHeader w s, true⟩ : firstResponseWriter W) = _
      rw [ih]; simp [Call.isWriteHeader, Call.perform]

theorem ifHandler_headerLoop_eq {W : Type} [http.ResponseWriter W] (header : Header) (w : W) :
    header.foldl (fun w entry =>
      entry.2.foldl (fun w value => http.ResponseWriter.HeaderApply w (.Set entry.1 value)) w) w
    = perform (ifHandler.headerCalls header) w := by
  induction header generalizing w with
  | nil => rfl
  | cons e rest ih =>
    rw [List.foldl_cons, ih]
    have inner : ∀ (vs : List String) (w : W),
        vs.foldl (fun w value => http.ResponseWriter.HeaderApply w (.Set e.1 value)) w
        = perform (vs.map (fun value => Call.Header (.Set e.1 value))) w := by
      intro vs
      induction vs with
      | nil => intro w; rfl
      | cons v vs ihv => intro w; rw [List.foldl_cons, ihv]; rfl
    rw [inner]
    simp [ifHandler.headerCalls, perform_append]

/-- The method `ifHandler.ServeHTTP` makes exactly the calls of `ifHandler.calls`
and calls the predicate once. -/
theorem ifHandler_ServeHTTP_eq {W : Type} [http.ResponseWriter W]
    (ih : Request → Header × Option Err) (w : W) (r : Request) :
    ifHandler.ServeHTTP ih w r = (perform (ifHandler.calls ih r) w, [Event.check r]) := by
  unfold ifHandler.ServeHTTP ifHandler.calls
  rcases hres : ih r with ⟨header, err⟩
  simp only [ifHandler_headerLoop_eq, perform_append]
  cases err with
  | none => rfl
  | some e =>
    by_cases hj : acceptJSON r = true
    · cases hs : e.Status <;>
        simp [hj, hs, perform, Call.perform, writeJSONError]
    · cases hs : e.Status <;>
        simp [hj, hs, perform, Call.perform, Fprint]

mutual
/-- Serving a handler on a lawful writer makes exactly the calls the handler
makes on a recorder with the same header map. -/
theorem Handler_ServeHTTP_eq : ∀ (h : Handler) {W : Type} [http.ResponseWriter W]
    [LawfulResponseWriter W] (w : W) (r : Request),
    h.ServeHTTP w r
      = (perform (h.calls r (http.ResponseWriter.Header w)) w,
         h.events r (http.ResponseWriter.Header w))
  | .HandlerFunc name serve, W, _, _, w, r => by
      simp [Handler.ServeHTTP, Handler.calls, Handler.events, perform_Recorder,
        http.ResponseWriter.Header]
  | .ifHandler f, W, _, _, w, r => by
      simp [Handler.ServeHTTP, Handler.calls, Handler.events, ifHandler_ServeHTTP_eq,
        perform_Recorder]
  | .FirstHandler fh, W, _, _, w, r => by
      have h1 := FirstHandler_range_eq fh w false r
      have h2 := FirstHandler_range_eq fh (⟨http.ResponseWriter.Header w, []⟩ : Recorder) false r
      simp only [Handler.ServeHTTP, Handler.calls, Handler.events]
      rw [h1, h2]
      simp [perform_Recorder, http.ResponseWriter.Header]
/-- The loop on a lawful writer makes exactly the calls it makes on a recorder
with the same header map, and ends with the same flag. -/
theorem FirstHandler_range_eq : ∀ (fh : List Handler) {W : Type} [http.ResponseWriter W]
    [LawfulResponseWriter W] (w : W) (c : Bool) (r : Request),
    FirstHandler.range fh (⟨w, c⟩ : firstResponseWriter W) r
      = (⟨perform
            (FirstHandler.probe fh r (http.ResponseWriter.Header w) c).1.ResponseWriter.calls w,
          (FirstHandler.probe fh r (http.ResponseWriter.Header w) c).1.written⟩,
         (FirstHandler.probe fh r (http.ResponseWriter.Header w) c).2)
  | [], W, _, _, w, c, r => by
      simp [FirstHandler.range, FirstHandler.probe, perform]
  | h :: rest, W, _, _, w, c, r => by
      have e1 := Handler_ServeHTTP_eq h (⟨w, c⟩ : firstResponseWriter W) r
      have e2 := Handler_ServeHTTP_eq h
        (⟨⟨http.ResponseWriter.Header w, []⟩, c⟩ : firstResponseWriter Recorder) r
      have hh : http.ResponseWriter.Header (⟨w, c⟩ : firstResponseWriter W)
          = http.ResponseWriter.Header w := rfl
      have hh2 : http.ResponseWriter.Header
          (⟨⟨http.ResponseWriter.Header w, []⟩, c⟩ : firstResponseWriter Recorder)
          = http.ResponseWriter.Header w := rfl
      rw [hh, perform_firstResponseWriter] at e1
      rw [hh2, perform_firstResponseWriter, perform_Recorder] at e2
      simp only [List.nil_append] at e2
      have i1 := FirstHandler_range_eq rest (perform (h.calls r (http.ResponseWriter.Header w)) w)
        (c || (h.calls r (http.ResponseWriter.Header w)).any Call.isWriteHeader) r
      have i2 := FirstHandler_range_eq rest
        (⟨(h.calls r (http.ResponseWriter.Header w)).foldl Call.header (http.ResponseWriter.Header w),
          h.calls r (http.ResponseWriter.Header w)⟩ : Recorder)
        (c || (h.calls r (http.ResponseWriter.Header w)).any Call.isWriteHeader) r
      rw [Header_perform] at i1
      have hh3 : http.ResponseWriter.Header
        (⟨(h.calls r (http.ResponseWriter.Header w)).foldl Call.header (http.ResponseWriter.Header w),
          h.calls r (http.ResponseWriter.Header w)⟩ : Recorder)
        = (h.calls r (http.ResponseWriter.Header w)).foldl Call.header
            (http.ResponseWriter.Header w) := rfl
      rw [hh3] at i2
      simp only [FirstHandler.probe, FirstHandler.range] at i1 i2 ⊢
      rw [e1, e2]
      generalize (c || (h.calls r (http.ResponseWriter.Header w)).any Call.isWriteHeader) = b
        at i1 i2 ⊢
      cases b with
      | true => simp
      | false =>
        simp only [Bool.false_eq_true, if_false]
        rw [i1, i2]
        simp [perform_Recorder, perform_append]
end

/-- Serving a handler directly on a recorder. -/
theorem ServeHTTP_Recorder (h : Handler) (w : Recorder) (r : Request) :
    h.ServeHTTP w r
      = (⟨(h.calls r w.header).foldl Call.header w.header, w.calls ++ h.calls r w.header⟩,
         h.events r w.header) := by
  rw [Handler_ServeHTTP_eq h w r, perform_Recorder]; rfl

/-- Serving a handler on the `firstResponseWriter` of a chain over a recorder:
the recorder ends as if served directly, and the flag records whether the
handler called `WriteHeader`. -/
theorem ServeHTTP_first (h : Handler) (w : Recorder) (b : Bool) (r : Request) :
    h.ServeHTTP (⟨w, b⟩ : firstResponseWriter Recorder) r
      = (⟨(h.ServeHTTP w r).1, b || (h.calls r w.header).any Call.isWriteHeader⟩,
         (h.ServeHTTP w r).2) := by
  rw [Handler_ServeHTTP_eq h (⟨w, b⟩ : firstResponseWriter Recorder) r,
    Handler_ServeHTTP_eq h w r, perform_firstResponseWriter]
  rfl


/-! ## Chains -/

/-- The calls of a handler from outside the package are those of its body. -/
theorem calls_HandlerFunc (name : String) (serve : Request → Header → List Call)
    (r : Request) (header : Header) :
    (Handler.HandlerFunc name serve).calls r header = serve r header := by
  simp [Handler.calls, Handler.ServeHTTP, perform_Recorder, http.ResponseWriter.Header]

theorem serveEach_cons (h : Handler) (rest : List Handler) (w : Recorder) (r : Request) :
    FirstHandler.serveEach (h :: rest) w r
      = ((FirstHandler.serveEach rest (h.ServeHTTP w r).1 r).1,
         (h.ServeHTTP w r).2 ++ (FirstHandler.serveEach rest (h.ServeHTTP w r).1 r).2) := rfl

theorem range_cons (h : Handler) (rest : List Handler) (w : Recorder) (b : Bool) (r : Request) :
    FirstHandler.range (h :: rest) (⟨w, b⟩ : firstResponseWriter Recorder) r
      = if (b || (h.calls r w.header).any Call.isWriteHeader) = true then
          (⟨(h.ServeHTTP w r).1, b || (h.calls r w.header).any Call.isWriteHeader⟩,
           (h.ServeHTTP w r).2)
        else
          ((FirstHandler.range rest
              (⟨(h.ServeHTTP w r).1, b || (h.calls r w.header).any Call.isWriteHeader⟩ :
                firstResponseWriter Recorder) r).1,
           (h.ServeHTTP w r).2 ++ (FirstHandler.range rest
              (⟨(h.ServeHTTP w r).1, b || (h.calls r w.header).any Call.isWriteHeader⟩ :
                firstResponseWriter Recorder) r).2) := by
  simp only [FirstHandler.range]
  rw [ServeHTTP_first]

/-- The loop stops after the first handler that calls `WriteHeader`. -/
theorem range_stops (fh : List Handler) (r : Request) :
    ∀ (w : Recorder) (j : Nat),
      (FirstHandler.callsAt fh r w j).any Call.isWriteHeader = true →
      (∀ i, i < j → (FirstHandler.callsAt fh r w i).any Call.isWriteHeader = false) →
      FirstHandler.range fh (⟨w, false⟩ : firstResponseWriter Recorder) r
        = (⟨(FirstHandler.serveEach (fh.take (j + 1)) w r).1, true⟩,
           (FirstHandler.serveEach (fh.take (j + 1)) w r).2) := by
  induction fh with
  | nil => intro w j hc _; simp [FirstHandler.callsAt] at hc
  | cons h rest ih =>
    intro w j hc hn
    rw [range_cons]
    cases j with
    | zero =>
      have hc0 : (h.calls r w.header).any Call.isWriteHeader = true := hc
      simp [hc0, List.take, FirstHandler.serveEach]
    | succ j =>
      have h0 : (h.calls r w.header).any Call.isWriteHeader = false := hn 0 (Nat.succ_pos j)
      have hrest := ih (h.ServeHTTP w r).1 j hc
        (fun i hi => hn (i + 1) (Nat.succ_lt_succ hi))
      simp only [h0, Bool.or_self, Bool.false_eq_true, if_false, List.take_succ_cons,
        serveEach_cons]
      rw [hrest]

/-- The loop serves every handler when none calls `WriteHeader`. -/
theorem range_exhausts (fh : List Handler) (r : Request) :
    ∀ (w : Recorder),
      (∀ i, i < fh.length → (FirstHandler.callsAt fh r w i).any Call.isWriteHeader = false) →
      FirstHandler.range fh (⟨w, false⟩ : firstResponseWriter Recorder) r
        = (⟨(FirstHandler.serveEach fh w r).1, false⟩, (FirstHandler.serveEach fh w r).2) := by
  induction fh with
  | nil => intro w _; rfl
  | cons h rest ih =>
    intro w hn
    rw [range_cons]
    have h0 : (h.calls r w.header).any Call.isWriteHeader = false :=
      hn 0 (Nat.succ_pos rest.length)
    have hrest := ih (h.ServeHTTP w r).1 (fun i hi => hn (i + 1) (Nat.succ_lt_succ hi))
    simp only [h0, Bool.or_self, Bool.false_eq_true, if_false, serveEach_cons]
    rw [hrest]

/-- The statuses committed by the reference run up to and including the first
handler that calls `WriteHeader` are those of that handler. -/
theorem serveEach_statuses_stop (fh : List Handler) (r : Request) :
    ∀ (w : Recorder) (j : Nat),
      (∀ i, i < j → (FirstHandler.callsAt fh r w i).any Call.isWriteHeader = false) →
      statuses (FirstHandler.serveEach (fh.take (j + 1)) w r).1.calls
        = statuses w.calls ++ statuses (FirstHandler.callsAt fh r w j) := by
  induction fh with
  | nil => intro w j _; simp [FirstHandler.serveEach, FirstHandler.callsAt, statuses]
  | cons h rest ih =>
    intro w j hn
    cases j with
    | zero =>
      simp [FirstHandler.serveEach, FirstHandler.callsAt, ServeHTTP_Recorder, statuses_append]
    | succ j =>
      have h0 : (h.calls r w.header).any Call.isWriteHeader = false := hn 0 (Nat.succ_pos j)
      have hrest := ih (h.ServeHTTP w r).1 j (fun i hi => hn (i + 1) (Nat.succ_lt_succ hi))
      rw [List.take_succ_cons, serveEach_cons]
      simp only [FirstHandler.callsAt]
      rw [hrest, ServeHTTP_Recorder]
      simp [statuses_append, statuses_of_any_false _ h0]

/-- The reference run commits no status when no handler calls `WriteHeader`. -/
theorem serveEach_statuses_none (fh : List Handler) (r : Request) :
    ∀ (w : Recorder),
      (∀ i, i < fh.length → (FirstHandler.callsAt fh r w i).any Call.isWriteHeader = false) →
      statuses (FirstHandler.serveEach fh w r).1.calls = statuses w.calls := by
  induction fh with
  | nil => intro w _; rfl
  | cons h rest ih =>
    intro w hn
    have h0 : (h.calls r w.header).any Call.isWriteHeader = false :=
      hn 0 (Nat.succ_pos rest.length)
    have hrest := ih (h.ServeHTTP w r).1 (fun i hi => hn (i + 1) (Nat.succ_lt_succ hi))
    rw [serveEach_cons]
    simp only []
    rw [hrest, ServeHTTP_Recorder]
    simp [statuses_append, statuses_of_any_false _ h0]

theorem FirstHandler_ServeHTTP_unfold (fh : List Handler) (w : Recorder) (r : Request) :
    FirstHandler.ServeHTTP (First fh) w r
      = ((FirstHandler.range fh (⟨w, false⟩ : firstResponseWriter Recorder) r).1.ResponseWriter,
         (FirstHandler.range fh (⟨w, false⟩ : firstResponseWriter Recorder) r).2) := by
  simp [FirstHandler.ServeHTTP, First, Handler.ServeHTTP]


/-! ## The guard -/

theorem ifHandler_calls_eq (f : Request → Header × Option Err) (r : Request) (header : Header) :
    (Handler.ifHandler f).calls r header = ifHandler.calls f r := by
  simp [Handler.calls, Handler.ServeHTTP, ifHandler_ServeHTTP_eq, perform_Recorder]

theorem headerCalls_any (header : Header) :
    (ifHandler.headerCalls header).any Call.isWriteHeader = false := by
  simp [ifHandler.headerCalls, Call.isWriteHeader]

theorem headerCalls_statuses (header : Header) : statuses (ifHandler.headerCalls header) = [] :=
  statuses_of_any_false _ (headerCalls_any header)

theorem headerCalls_body (header : Header) : body (ifHandler.headerCalls header) = "" := by
  unfold ifHandler.headerCalls
  induction header with
  | nil => rfl
  | cons e rest ih =>
    rw [List.flatMap_cons, body_append, ih]
    have inner : ∀ vs : List String,
        body (vs.map (fun value => Call.Header (.Set e.1 value))) = "" := by
      intro vs
      induction vs with
      | nil => rfl
      | cons v vs ihv => simpa [body] using ihv
    rw [inner]; rfl

/-- Serving with `If(f, h)`: on failure only the guard unit acts, on success the
guard unit sets the headers and `h` is served next on the same writer. -/
theorem If_ServeHTTP_eq (f : Request → Header × Option Err) (h : Handler) (r : Request)
    (w : Recorder) :
    FirstHandler.ServeHTTP (If f h) w r
      = match (f r).2 with
        | some _ => ifHandler.ServeHTTP f w r
        | none => ((h.ServeHTTP (ifHandler.ServeHTTP f w r).1 r).1,
                   Event.check r :: (h.ServeHTTP (ifHandler.ServeHTTP f w r).1 r).2) := by
  have hs : (Handler.ifHandler f).ServeHTTP w r = ifHandler.ServeHTTP f w r := by
    simp [Handler.ServeHTTP]
  rw [If, FirstHandler_ServeHTTP_unfold, range_cons, ifHandler_calls_eq, hs]
  cases hf : (f r).2 with
  | some err =>
    simp [ifHandler.calls, hf, Call.isWriteHeader]
  | none =>
    have hflag : (ifHandler.calls f r).any Call.isWriteHeader = false := by
      simp [ifHandler.calls, hf, headerCalls_any]
    simp only [hflag, Bool.or_self, Bool.false_eq_true, if_false]
    rw [range_cons]
    have hev : (ifHandler.ServeHTTP f w r).2 = [Event.check r] := by
      rw [ifHandler_ServeHTTP_eq]
    by_cases hc : (h.calls r (ifHandler.ServeHTTP f w r).1.header).any Call.isWriteHeader = true
    · simp [hc, hev]
    · simp [hc, hev, FirstHandler.range]

theorem ifHandler_ServeHTTP_calls (f : Request → Header × Option Err) (r : Request)
    (w : Recorder) :
    (ifHandler.ServeHTTP f w r).1.calls = w.calls ++ ifHandler.calls f r := by
  rw [ifHandler_ServeHTTP_eq, perform_Recorder]

theorem ifHandler_ServeHTTP_header (f : Request → Header × Option Err) (r : Request)
    (w : Recorder) :
    (ifHandler.ServeHTTP f w r).1.header = (ifHandler.calls f r).foldl Call.header w.header := by
  rw [ifHandler_ServeHTTP_eq, perform_Recorder]

end tigertonic

namespace http

/-! ## Header maps -/

theorem values_filter (h : Header) (k name : String) :
    Header.values (h.filter (fun e => decide (e.1 ≠ k))) name
      = if k = name then [] else Header.values h name := by
  induction h with
  | nil => simp [Header.values]
  | cons e rest ih =>
    obtain ⟨k2, vs⟩ := e
    by_cases hk : k2 = k
    · subst hk
      by_cases hn : k2 = name
      · simp [List.filter, Header.values, hn] at ih ⊢; exact ih
      · simp [List.filter, Header.values, hn] at ih ⊢; exact ih
    · by_cases hn : k = name
      · subst hn
        simp [List.filter, Header.values, hk] at ih ⊢; exact ih
      · simp [List.filter, Header.values, hk, hn] at ih ⊢
        rw [ih]

/-- After `Del`, the canonical form of the key holds nothing and other keys are
as before. -/
theorem values_Del (h : Header) (key name : String) :
    Header.values (Header.Del h key) name
      = if CanonicalMIMEHeaderKey key = name then [] else Header.values h name :=
  values_filter h (CanonicalMIMEHeaderKey key) name

/-- After `Set`, the canonical form of the key holds exactly the value set and
other keys are as before. -/
theorem values_Set (h : Header) (key value name : String) :
    Header.values (Header.Set h key value) name
      = if CanonicalMIMEHeaderKey key = name then [value] else Header.values h name := by
  unfold Header.Set
  by_cases hn : CanonicalMIMEHeaderKey key = name
  · simp [Header.values, hn]
  · simp [Header.values, hn, values_Del]

end http

namespace tigertonic
open http

theorem foldl_header_append (a b : List Call) (h : Header) :
    (a ++ b).foldl Call.header h = b.foldl Call.header (a.foldl Call.header h) :=
  List.foldl_append _ _ _ _

/-- Setting every value of one entry in turn: a key other than the canonical form
of the entry's name keeps its values. -/
theorem values_setEach_other (key name : String) (hne : CanonicalMIMEHeaderKey key ≠ name)
    (vs : List String) (h : Header) :
    Header.values
      ((vs.map (fun value => Call.Header (.Set key value))).foldl Call.header h) name
      = Header.values h name := by
  induction vs generalizing h with
  | nil => rfl
  | cons v vs ih =>
    simp only [List.map_cons, List.foldl_cons, Call.header, HeaderOp.apply]
    rw [ih, values_Set, if_neg hne]

/-- Setting every value of one entry in turn: the canonical form of the name ends
with the last value. -/
theorem values_setEach_last (key : String) (vs : List String) (hvs : vs ≠ []) (h : Header) :
    Header.values
      ((vs.map (fun value => Call.Header (.Set key value))).foldl Call.header h)
      (CanonicalMIMEHeaderKey key)
      = [vs.getLast hvs] := by
  induction vs generalizing h with
  | nil => exact absurd rfl hvs
  | cons v vs ih =>
    simp only [List.map_cons, List.foldl_cons, Call.header, HeaderOp.apply]
    cases vs with
    | nil => simp [values_Set]
    | cons v2 vs2 =>
      rw [ih (List.cons_ne_nil v2 vs2)]
      simp [List.getLast_cons]

/-- After the header loop, when no other returned name with values shares the
canonical form of `name`, that key holds the last value of `name` if `name` is
in the returned map, and what it held before otherwise. -/
theorem values_headerCalls_cases (header : Header) (name : String) (vs : List String)
    (hvs : vs ≠ [])
    (huniq : ∀ e ∈ header, e.2 ≠ [] →
      CanonicalMIMEHeaderKey e.1 = CanonicalMIMEHeaderKey name → e = (name, vs))
    (h : Header) :
    Header.values ((ifHandler.headerCalls header).foldl Call.header h)
        (CanonicalMIMEHeaderKey name)
      = if (name, vs) ∈ header then [vs.getLast hvs]
        else Header.values h (CanonicalMIMEHeaderKey name) := by
  induction header generalizing h with
  | nil => simp [ifHandler.headerCalls]
  | cons e rest ih =>
    have hrest : ∀ e2 ∈ rest, e2.2 ≠ [] →
        CanonicalMIMEHeaderKey e2.1 = CanonicalMIMEHeaderKey name → e2 = (name, vs) :=
      fun e2 h2 => huniq e2 (List.mem_cons_of_mem _ h2)
    simp only [ifHandler.headerCalls, List.flatMap_cons] at ih ⊢
    rw [foldl_header_append, ih hrest]
    by_cases he : e = (name, vs)
    · subst he
      simp only [List.mem_cons, true_or, if_true]
      rw [values_setEach_last name vs hvs]
      simp
    · have hmem : ((name, vs) ∈ e :: rest) ↔ ((name, vs) ∈ rest) := by
        simp only [List.mem_cons]
        constructor
        · rintro (h1 | h1)
          · exact absurd h1.symm he
          · exact h1
        · exact Or.inr
      simp only [hmem]
      by_cases hev : e.2 = []
      · rw [hev]; rfl
      · have hne : CanonicalMIMEHeaderKey e.1 ≠ CanonicalMIMEHeaderKey name :=
          fun hc => he (huniq e (List.mem_cons_self _ _) hev hc)
        rw [values_setEach_other e.1 (CanonicalMIMEHeaderKey name) hne]

/-- After the header loop a returned name with values, whose canonical form no
other returned name with values shares, holds the last of its values. -/
theorem values_headerCalls_last (header : Header) (name : String) (vs : List String)
    (hmem : (name, vs) ∈ header) (hvs : vs ≠ [])
    (huniq : ∀ e ∈ header, e.2 ≠ [] →
      CanonicalMIMEHeaderKey e.1 = CanonicalMIMEHeaderKey name → e = (name, vs))
    (h : Header) :
    Header.values ((ifHandler.headerCalls header).foldl Call.header h)
        (CanonicalMIMEHeaderKey name)
      = [vs.getLast hvs] := by
  rw [values_headerCalls_cases header name vs hvs huniq h, if_pos hmem]

theorem canonical_Content_Type : CanonicalMIMEHeaderKey "Content-Type" = "Content-Type" := by
  decide

theorem ifHandler_failure_header (f : Request → Header × Option Err) (r : Request)
    (w : Recorder) (err : Err) (hf : (f r).2 = some err) :
    Header.values (ifHandler.ServeHTTP f w r).1.header "Content-Type"
      = [if acceptJSON r then "application/json" else "text/plain"] := by
  rw [ifHandler_ServeHTTP_header]
  unfold ifHandler.calls
  rw [foldl_header_append, hf]
  simp only [List.foldl_cons, List.foldl_nil, Call.header, HeaderOp.apply]
  rw [values_Set, if_pos canonical_Content_Type]

/-- When the guard unit returns, every key other than the `Content-Type` of a
failure holds what it held after the header loop. -/
theorem ifHandler_header_values (f : Request → Header × Option Err) (r : Request)
    (w : Recorder) (key : String) (hct : (f r).2 = none ∨ key ≠ "Content-Type") :
    Header.values (ifHandler.ServeHTTP f w r).1.header key
      = Header.values ((ifHandler.headerCalls (f r).1).foldl Call.header w.header) key := by
  rw [ifHandler_ServeHTTP_header]
  unfold ifHandler.calls
  rw [foldl_header_append]
  cases hf : (f r).2 with
  | none => rfl
  | some err =>
    have hne : key ≠ "Content-Type" := by
      rcases hct with hnone | hne
      · rw [hf] at hnone; exact absurd hnone (by simp)
      · exact hne
    simp only [List.foldl_cons, List.foldl_nil, Call.header, HeaderOp.apply]
    rw [values_Set, canonical_Content_Type, if_neg (Ne.symm hne)]

/-! ## The claims -/

/-- C1: in a chain `First(h1..hN)`, when the handler at position `j` (handler
`k = j + 1`) calls `WriteHeader` on the writer it is given and no handler before
it does, `FirstHandler.ServeHTTP` serves exactly the handlers `1..k`, once each
and in order, and none after them; the statuses that reach the underlying
writer are those committed by handler `k` alone. -/
theorem FirstHandler_stops_at_first_commit (fh : List Handler) (r : Request) (w : Recorder)
    (j : Nat)
    (hcommit : (FirstHandler.callsAt fh r w j).any Call.isWriteHeader = true)
    (hnone : ∀ i, i < j → (FirstHandler.callsAt fh r w i).any Call.isWriteHeader = false) :
    FirstHandler.ServeHTTP (First fh) w r = FirstHandler.serveEach (fh.take (j + 1)) w r ∧
    statuses (FirstHandler.ServeHTTP (First fh) w r).1.calls
      = statuses w.calls ++ statuses (FirstHandler.callsAt fh r w j) := by
  have hrun : FirstHandler.ServeHTTP (First fh) w r
      = FirstHandler.serveEach (fh.take (j + 1)) w r := by
    rw [FirstHandler_ServeHTTP_unfold, range_stops fh r w j hcommit hnone]
  exact ⟨hrun, by rw [hrun, serveEach_statuses_stop fh r w j hnone]⟩

/-- C1 at a chain of three handlers whose second commits: the first two are
served, the third is not, and the one status committed is the second's. -/
theorem FirstHandler_stops_at_first_commit_witness :
    (FirstHandler.ServeHTTP (First [sample.tag, sample.ok, sample.notFound]) sample.fresh
        (sample.request "text/plain")).2
      = [Event.ServeHTTP "tag" (sample.request "text/plain"),
         Event.ServeHTTP "ok" (sample.request "text/plain")] ∧
    statuses (FirstHandler.ServeHTTP (First [sample.tag, sample.ok, sample.notFound])
        sample.fresh (sample.request "text/plain")).1.calls = [200] := by
  have h := FirstHandler_stops_at_first_commit [sample.tag, sample.ok, sample.notFound]
    (sample.request "text/plain") sample.fresh 1 (by decide)
    (by intro i hi; interval_cases i; decide)
  refine ⟨?_, ?_⟩
  · rw [h.1]; decide
  · rw [h.2]; decide

/-- C2: when no handler of a chain calls `WriteHeader` on the writer it is given,
`FirstHandler.ServeHTTP` serves all `N` handlers, once each and in the configured
order, and no status reaches the underlying writer. -/
theorem FirstHandler_serves_all_without_commit (fh : List Handler) (r : Request) (w : Recorder)
    (hnone : ∀ i, i < fh.length →
      (FirstHandler.callsAt fh r w i).any Call.isWriteHeader = false) :
    FirstHandler.ServeHTTP (First fh) w r = FirstHandler.serveEach fh w r ∧
    statuses (FirstHandler.ServeHTTP (First fh) w r).1.calls = statuses w.calls := by
  have hrun : FirstHandler.ServeHTTP (First fh) w r = FirstHandler.serveEach fh w r := by
    rw [FirstHandler_ServeHTTP_unfold, range_exhausts fh r w hnone]
  exact ⟨hrun, by rw [hrun, serveEach_statuses_none fh r w hnone]⟩

/-- C2 at a chain of two handlers that only set headers: both are served, in
order, and nothing is committed. -/
theorem FirstHandler_serves_all_without_commit_witness :
    (FirstHandler.ServeHTTP (First [sample.tag, sample.tag]) sample.fresh
        (sample.request "text/plain")).2
      = [Event.ServeHTTP "tag" (sample.request "text/plain"),
         Event.ServeHTTP "tag" (sample.request "text/plain")] ∧
    statuses (FirstHandler.ServeHTTP (First [sample.tag, sample.tag]) sample.fresh
        (sample.request "text/plain")).1.calls = [] := by
  have h := FirstHandler_serves_all_without_commit [sample.tag, sample.tag]
    (sample.request "text/plain") sample.fresh
    (by intro i hi; simp only [List.length_cons, List.length_nil] at hi
        interval_cases i <;> decide)
  refine ⟨?_, ?_⟩
  · rw [h.1]; decide
  · rw [h.2]; decide

/-- C3: when the predicate returns a non-nil error, serving with `If(f, h)` is
the guard unit's work alone: exactly one `WriteHeader` call reaches the
underlying writer, and `h` is not invoked (the outcome does not depend on `h`
and the only invocation logged is the predicate's). -/
theorem If_failure_single_response (f : Request → Header × Option Err) (h : Handler)
    (r : Request) (w : Recorder) (err : Err) (hf : (f r).2 = some err) :
    FirstHandler.ServeHTTP (If f h) w r = ifHandler.ServeHTTP f w r ∧
    (FirstHandler.ServeHTTP (If f h) w r).2 = [Event.check r] ∧
    ∃ status, statuses (FirstHandler.ServeHTTP (If f h) w r).1.calls
      = statuses w.calls ++ [status] := by
  have hrun : FirstHandler.ServeHTTP (If f h) w r = ifHandler.ServeHTTP f w r := by
    rw [If_ServeHTTP_eq, hf]
  refine ⟨hrun, ?_, err.Status.getD StatusInternalServerError, ?_⟩
  · rw [hrun, ifHandler_ServeHTTP_eq]
  · rw [hrun, ifHandler_ServeHTTP_calls, statuses_append]
    simp [ifHandler.calls, hf, statuses_append, headerCalls_statuses, statuses]

/-- C3 at a predicate that fails with status 429 in front of a handler that
would commit 200: one status is committed and the handler is not invoked. -/
theorem If_failure_single_response_witness :
    (FirstHandler.ServeHTTP (If sample.rateLimited sample.ok) sample.fresh
        (sample.request "text/plain")).2 = [Event.check (sample.request "text/plain")] ∧
    ∃ status, statuses (FirstHandler.ServeHTTP (If sample.rateLimited sample.ok) sample.fresh
        (sample.request "text/plain")).1.calls = statuses sample.fresh.calls ++ [status] :=
  (If_failure_single_response sample.rateLimited sample.ok (sample.request "text/plain")
    sample.fresh (.WithStatus "rate limited" 429) rfl).2

/-- C4: when the predicate returns a nil error, the guard unit commits nothing
and writes no body, and serving with `If(f, h)` invokes `h` exactly once, with
the same request, on the writer as the guard unit left it; the statuses and the
body that reach the underlying writer are exactly those produced by `h`. -/
theorem If_success_delegates (f : Request → Header × Option Err) (h : Handler)
    (r : Request) (w : Recorder) (hf : (f r).2 = none) :
    statuses (ifHandler.ServeHTTP f w r).1.calls = statuses w.calls ∧
    body (ifHandler.ServeHTTP f w r).1.calls = body w.calls ∧
    FirstHandler.ServeHTTP (If f h) w r
      = ((h.ServeHTTP (ifHandler.ServeHTTP f w r).1 r).1,
         Event.check r :: (h.ServeHTTP (ifHandler.ServeHTTP f w r).1 r).2) ∧
    statuses (FirstHandler.ServeHTTP (If f h) w r).1.calls
      = statuses w.calls ++ statuses (h.calls r (ifHandler.ServeHTTP f w r).1.header) ∧
    body (FirstHandler.ServeHTTP (If f h) w r).1.calls
      = body w.calls ++ body (h.calls r (ifHandler.ServeHTTP f w r).1.header) := by
  have hg : (ifHandler.ServeHTTP f w r).1.calls = w.calls ++ ifHandler.headerCalls (f r).1 := by
    rw [ifHandler_ServeHTTP_calls]; simp [ifHandler.calls, hf]
  have hgs : statuses (ifHandler.ServeHTTP f w r).1.calls = statuses w.calls := by
    rw [hg, statuses_append, headerCalls_statuses, List.append_nil]
  have hgb : body (ifHandler.ServeHTTP f w r).1.calls = body w.calls := by
    rw [hg, body_append, headerCalls_body, String.append_empty]
  have hrun : FirstHandler.ServeHTTP (If f h) w r
      = ((h.ServeHTTP (ifHandler.ServeHTTP f w r).1 r).1,
         Event.check r :: (h.ServeHTTP (ifHandler.ServeHTTP f w r).1 r).2) := by
    rw [If_ServeHTTP_eq, hf]
  refine ⟨hgs, hgb, hrun, ?_, ?_⟩
  · rw [hrun, ServeHTTP_Recorder]
    simp only [statuses_append, hgs]
  · rw [hrun, ServeHTTP_Recorder]
    simp only [body_append, hgb]

/-- C4 at a passing predicate in front of a handler that commits 200: the
handler is invoked once and the response is the handler's. -/
theorem If_success_delegates_witness :
    (FirstHandler.ServeHTTP (If sample.allow sample.ok) sample.fresh
        (sample.request "text/plain")).2
      = [Event.check (sample.request "text/plain"),
         Event.ServeHTTP "ok" (sample.request "text/plain")] ∧
    statuses (FirstHandler.ServeHTTP (If sample.allow sample.ok) sample.fresh
        (sample.request "text/plain")).1.calls = [200] ∧
    body (FirstHandler.ServeHTTP (If sample.allow sample.ok) sample.fresh
        (sample.request "text/plain")).1.calls = "ok" := by
  have h := If_success_delegates sample.allow sample.ok (sample.request "text/plain")
    sample.fresh rfl
  refine ⟨?_, ?_, ?_⟩
  · rw [h.2.2.1]; decide
  · rw [h.2.2.2.1]; decide
  · rw [h.2.2.2.2]; decide


/-- C5: when the failure returned by the predicate exposes the status code `s`,
the one status that `If(f, h)` commits on the underlying writer is `s`, and `h`
is not invoked (the outcome is the guard unit's alone). -/
theorem If_failure_explicit_status (f : Request → Header × Option Err) (h : Handler)
    (r : Request) (w : Recorder) (err : Err) (s : Int)
    (hf : (f r).2 = some err) (hs : err.Status = some s) :
    statuses (FirstHandler.ServeHTTP (If f h) w r).1.calls = statuses w.calls ++ [s] ∧
    FirstHandler.ServeHTTP (If f h) w r = ifHandler.ServeHTTP f w r ∧
    (FirstHandler.ServeHTTP (If f h) w r).2 = [Event.check r] := by
  have hrun : FirstHandler.ServeHTTP (If f h) w r = ifHandler.ServeHTTP f w r := by
    rw [If_ServeHTTP_eq, hf]
  refine ⟨?_, hrun, ?_⟩
  · rw [hrun, ifHandler_ServeHTTP_calls, statuses_append]
    simp [ifHandler.calls, hf, hs, statuses_append, headerCalls_statuses, statuses]
  · rw [hrun, ifHandler_ServeHTTP_eq]

/-- C5 at a failure with status 429: the status committed is 429 and the wrapped
handler is not invoked. -/
theorem If_failure_explicit_status_witness :
    statuses (FirstHandler.ServeHTTP (If sample.rateLimited sample.ok) sample.fresh
        (sample.request "application/json")).1.calls = [429] ∧
    (FirstHandler.ServeHTTP (If sample.rateLimited sample.ok) sample.fresh
        (sample.request "application/json")).2 = [Event.check (sample.request "application/json")] :=
  ⟨(If_failure_explicit_status sample.rateLimited sample.ok (sample.request "application/json")
      sample.fresh (.WithStatus "rate limited" 429) 429 rfl rfl).1,
   (If_failure_explicit_status sample.rateLimited sample.ok (sample.request "application/json")
      sample.fresh (.WithStatus "rate limited" 429) 429 rfl rfl).2.2⟩

/-- C6: when the failure returned by the predicate exposes no status code, the
one status that `If(f, h)` commits on the underlying writer is 500, for every
request and so for either response format. -/
theorem If_failure_default_status (f : Request → Header × Option Err) (h : Handler)
    (r : Request) (w : Recorder) (err : Err)
    (hf : (f r).2 = some err) (hs : err.Status = none) :
    statuses (FirstHandler.ServeHTTP (If f h) w r).1.calls = statuses w.calls ++ [500] := by
  have hrun : FirstHandler.ServeHTTP (If f h) w r = ifHandler.ServeHTTP f w r := by
    rw [If_ServeHTTP_eq, hf]
  rw [hrun, ifHandler_ServeHTTP_calls, statuses_append]
  simp [ifHandler.calls, hf, hs, statuses_append, headerCalls_statuses, statuses,
    StatusInternalServerError]

/-- C6 at a failure without a status, for a request that accepts JSON and for
one that asks for plain text: the status committed is 500 in both. -/
theorem If_failure_default_status_witness :
    statuses (FirstHandler.ServeHTTP (If sample.broken sample.ok) sample.fresh
        (sample.request "application/json")).1.calls = [500] ∧
    statuses (FirstHandler.ServeHTTP (If sample.broken sample.ok) sample.fresh
        (sample.request "text/plain")).1.calls = [500] :=
  ⟨If_failure_default_status sample.broken sample.ok (sample.request "application/json")
      sample.fresh (.Plain "boom") rfl rfl,
   If_failure_default_status sample.broken sample.ok (sample.request "text/plain")
      sample.fresh (.Plain "boom") rfl rfl⟩

/-- C7, counterexample: the predicate `sample.typed` fails and returns the pairs
`Content-Type: text/html`, `Retry-After: 30` and `Retry-After: 60`. When the guard
unit returns, and on the final error response, `Content-Type` holds the media
type of the error body and `Retry-After` holds `60` only: the returned pairs
`Content-Type: text/html` and `Retry-After: 30` are not on the header map. -/
theorem If_returned_pairs_not_all_present :
    (sample.typed (sample.request "text/plain")).1
      = [("Content-Type", ["text/html"]), ("Retry-After", ["30", "60"])] ∧
    "text/html" ∉ Header.values (ifHandler.ServeHTTP sample.typed sample.fresh
        (sample.request "text/plain")).1.header "Content-Type" ∧
    "30" ∉ Header.values (ifHandler.ServeHTTP sample.typed sample.fresh
        (sample.request "text/plain")).1.header "Retry-After" ∧
    "text/html" ∉ Header.values (FirstHandler.ServeHTTP (If sample.typed sample.ok) sample.fresh
        (sample.request "text/plain")).1.header "Content-Type" ∧
    "30" ∉ Header.values (FirstHandler.ServeHTTP (If sample.typed sample.ok) sample.fresh
        (sample.request "text/plain")).1.header "Retry-After" := by
  decide

/-- C7, amended: every returned name that carries exactly one value, whose
canonical form no other returned name with values shares and is not
`Content-Type` when the check failed, holds exactly that value under its
canonical form on the writer's header map when the guard unit returns, whether
the check succeeded or failed, so that `Get` with the name returns the value;
when the check failed the same holds on the final response of `If(f, h)`, whose
`Content-Type` is the media type of the error body. -/
theorem If_single_valued_headers_present (f : Request → Header × Option Err) (h : Handler)
    (r : Request) (w : Recorder) (name value : String)
    (hmem : (name, [value]) ∈ (f r).1)
    (huniq : ∀ e ∈ (f r).1, e.2 ≠ [] →
      CanonicalMIMEHeaderKey e.1 = CanonicalMIMEHeaderKey name → e = (name, [value]))
    (hct : (f r).2 = none ∨ CanonicalMIMEHeaderKey name ≠ "Content-Type") :
    Header.values (ifHandler.ServeHTTP f w r).1.header (CanonicalMIMEHeaderKey name)
      = [value] ∧
    Header.Get (ifHandler.ServeHTTP f w r).1.header name = value ∧
    ((f r).2 ≠ none →
      Header.values (FirstHandler.ServeHTTP (If f h) w r).1.header
          (CanonicalMIMEHeaderKey name) = [value] ∧
      Header.Get (FirstHandler.ServeHTTP (If f h) w r).1.header name = value ∧
      Header.values (FirstHandler.ServeHTTP (If f h) w r).1.header "Content-Type"
        = [if acceptJSON r then "application/json" else "text/plain"]) := by
  have hloop := values_headerCalls_last (f r).1 name [value] hmem
    (List.cons_ne_nil _ _) huniq w.header
  have hguard : Header.values (ifHandler.ServeHTTP f w r).1.header
      (CanonicalMIMEHeaderKey name) = [value] := by
    rw [ifHandler_header_values f r w _ hct, hloop]; rfl
  have hget : Header.Get (ifHandler.ServeHTTP f w r).1.header name = value := by
    rw [Header.Get, hguard]; rfl
  refine ⟨hguard, hget, ?_⟩
  intro hfail
  cases hf : (f r).2 with
  | none => exact absurd hf hfail
  | some err =>
    have hrun : FirstHandler.ServeHTTP (If f h) w r = ifHandler.ServeHTTP f w r := by
      rw [If_ServeHTTP_eq, hf]
    rw [hrun]
    exact ⟨hguard, hget, ifHandler_failure_header f r w err hf⟩

/-- C7, amended, at a failing predicate that returns `retry-after: 30`: the value
is on the header map under `Retry-After` when the guard unit returns and on the
final response, whose `Content-Type` is `text/plain`. -/
theorem If_single_valued_headers_present_witness :
    Header.values (ifHandler.ServeHTTP sample.throttled sample.fresh
        (sample.request "text/plain")).1.header "Retry-After" = ["30"] ∧
    Header.Get (FirstHandler.ServeHTTP (If sample.throttled sample.ok) sample.fresh
        (sample.request "text/plain")).1.header "retry-after" = "30" ∧
    Header.values (FirstHandler.ServeHTTP (If sample.throttled sample.ok) sample.fresh
        (sample.request "text/plain")).1.header "Content-Type" = ["text/plain"] := by
  have h := If_single_valued_headers_present sample.throttled sample.ok
    (sample.request "text/plain") sample.fresh "retry-after" "30"
    (by decide) (by decide) (Or.inr (by decide))
  have hfail := h.2.2 (by decide)
  exact ⟨h.1, hfail.2.1, hfail.2.2⟩

theorem ifHandler_failure_body (f : Request → Header × Option Err) (r : Request)
    (w : Recorder) (err : Err) (hf : (f r).2 = some err) :
    body (ifHandler.ServeHTTP f w r).1.calls
      = body w.calls ++ (if acceptJSON r then jsonError err.Error else err.Error) := by
  rw [ifHandler_ServeHTTP_calls, body_append]
  unfold ifHandler.calls
  rw [body_append, headerCalls_body, hf]
  simp [body]

/-- C8: when the request's `Accept` header is `text/plain` or expresses no
preference (it is absent, or it is `*/*`) and the predicate fails with message
`m`, the error response of `If(f, h)` has `Content-Type` set to `text/plain` and
the body written is exactly `m`. -/
theorem If_failure_plain_text (f : Request → Header × Option Err) (h : Handler)
    (r : Request) (w : Recorder) (err : Err) (hf : (f r).2 = some err)
    (haccept : Header.Get r.Header "Accept" = "text/plain" ∨
      Header.Get r.Header "Accept" = "" ∨ Header.Get r.Header "Accept" = "*/*") :
    Header.values (FirstHandler.ServeHTTP (If f h) w r).1.header "Content-Type"
      = ["text/plain"] ∧
    body (FirstHandler.ServeHTTP (If f h) w r).1.calls = body w.calls ++ err.Error := by
  have hrun : FirstHandler.ServeHTTP (If f h) w r = ifHandler.ServeHTTP f w r := by
    rw [If_ServeHTTP_eq, hf]
  have hplain : acceptJSON r = false := by
    unfold acceptJSON
    rcases haccept with ha | ha | ha <;> rw [ha] <;> decide
  rw [hrun, ifHandler_failure_header f r w err hf, ifHandler_failure_body f r w err hf, hplain]
  simp

/-- C8 at a request that declares `Accept: text/plain` and the failure
`rate limited`: the content type is plain text and the body is the message. -/
theorem If_failure_plain_text_witness :
    Header.values (FirstHandler.ServeHTTP (If sample.rateLimited sample.ok) sample.fresh
        (sample.request "text/plain")).1.header "Content-Type" = ["text/plain"] ∧
    body (FirstHandler.ServeHTTP (If sample.rateLimited sample.ok) sample.fresh
        (sample.request "text/plain")).1.calls = "rate limited" := by
  have h := If_failure_plain_text sample.rateLimited sample.ok (sample.request "text/plain")
    sample.fresh (.WithStatus "rate limited" 429) rfl (Or.inl (by decide))
  exact ⟨h.1, by rw [h.2]; decide⟩

/-- C9: when the request declares `Accept: application/json` and the predicate
fails with message `m`, the error response of `If(f, h)` has `Content-Type` set
to `application/json` and the body written is exactly the object that maps
`"error"` to `m`; for the message `rate limited` that object is the text
`{"error":"rate limited"}`. -/
theorem If_failure_json (f : Request → Header × Option Err) (h : Handler)
    (r : Request) (w : Recorder) (err : Err) (hf : (f r).2 = some err)
    (haccept : Header.Get r.Header "Accept" = "application/json") :
    Header.values (FirstHandler.ServeHTTP (If f h) w r).1.header "Content-Type"
      = ["application/json"] ∧
    body (FirstHandler.ServeHTTP (If f h) w r).1.calls
      = body w.calls ++ jsonError err.Error ∧
    jsonError "rate limited" = "\x7b\"error\":\"rate limited\"\x7d" := by
  have hrun : FirstHandler.ServeHTTP (If f h) w r = ifHandler.ServeHTTP f w r := by
    rw [If_ServeHTTP_eq, hf]
  have hjson : acceptJSON r = true := by
    unfold acceptJSON
    rw [haccept]; decide
  rw [hrun, ifHandler_failure_header f r w err hf, ifHandler_failure_body f r w err hf, hjson]
  exact ⟨by simp, by simp, by decide⟩

/-- C9 at a request that declares `Accept: application/json` and the failure
`rate limited`. -/
theorem If_failure_json_witness :
    Header.values (FirstHandler.ServeHTTP (If sample.rateLimited sample.ok) sample.fresh
        (sample.request "application/json")).1.header "Content-Type" = ["application/json"] ∧
    body (FirstHandler.ServeHTTP (If sample.rateLimited sample.ok) sample.fresh
        (sample.request "application/json")).1.calls = "\x7b\"error\":\"rate limited\"\x7d" := by
  have h := If_failure_json sample.rateLimited sample.ok (sample.request "application/json")
    sample.fresh (.WithStatus "rate limited" 429) rfl (by decide)
  exact ⟨h.1, by rw [h.2.1]; decide⟩

theorem flags_written_true {W : Type} [http.ResponseWriter W] (cs : List Call) (w : W) :
    rises (firstResponseWriter.flags (⟨w, true⟩ : firstResponseWriter W) cs) = 0 := by
  induction cs generalizing w with
  | nil => rfl
  | cons c cs ih =>
    have hnext : ∃ w2 : W, c.perform (⟨w, true⟩ : firstResponseWriter W) = ⟨w2, true⟩ := by
      cases c with
      | Header op => exact ⟨_, rfl⟩
      | Write p => exact ⟨_, rfl⟩
      | WriteHeader s => exact ⟨_, rfl⟩
    obtain ⟨w2, h2⟩ := hnext
    simp only [firstResponseWriter.flags]
    rw [h2]
    have := ih w2
    cases cs with
    | nil => simp [firstResponseWriter.flags, rises]
    | cons c2 cs2 =>
      simp only [firstResponseWriter.flags] at this ⊢
      simpa [rises] using this

theorem flags_rises_le {W : Type} [http.ResponseWriter W] (cs : List Call) (w : W) (b : Bool) :
    rises (firstResponseWriter.flags (⟨w, b⟩ : firstResponseWriter W) cs) ≤ 1 := by
  cases b with
  | true => rw [flags_written_true]; exact Nat.zero_le 1
  | false =>
    induction cs generalizing w with
    | nil => simp [firstResponseWriter.flags, rises]
    | cons c cs ih =>
      cases c with
      | WriteHeader s =>
        have hstep : (Call.WriteHeader s).perform (⟨w, false⟩ : firstResponseWriter W)
            = ⟨http.ResponseWriter.WriteHeader w s, true⟩ := rfl
        have hz := flags_written_true cs (http.ResponseWriter.WriteHeader w s)
        simp only [firstResponseWriter.flags]
        rw [hstep]
        cases cs with
        | nil => simp [firstResponseWriter.flags, rises]
        | cons c2 cs2 =>
          simp only [firstResponseWriter.flags] at hz ⊢
          simp only [rises] at hz ⊢
          omega
      | Header op =>
        have hstep : (Call.Header op).perform (⟨w, false⟩ : firstResponseWriter W)
            = ⟨http.ResponseWriter.HeaderApply w op, false⟩ := rfl
        have hi := ih (http.ResponseWriter.HeaderApply w op)
        simp only [firstResponseWriter.flags]
        rw [hstep]
        cases cs with
        | nil => simp [firstResponseWriter.flags, rises]
        | cons c2 cs2 =>
          simp only [firstResponseWriter.flags] at hi ⊢
          simpa [rises] using hi
      | Write p =>
        have hstep : (Call.Write p).perform (⟨w, false⟩ : firstResponseWriter W)
            = ⟨http.ResponseWriter.Write w p, false⟩ := rfl
        have hi := ih (http.ResponseWriter.Write w p)
        simp only [firstResponseWriter.flags]
        rw [hstep]
        cases cs with
        | nil => simp [firstResponseWriter.flags, rises]
        | cons c2 cs2 =>
          simp only [firstResponseWriter.flags] at hi ⊢
          simpa [rises] using hi

/-- C10: for every `firstResponseWriter` and every sequence of `Header`, `Write`
and `WriteHeader` calls on it, once `written` is true it is true after every
later call, so along the sequence it changes from false to true at most once;
and on a writer created with `written` false it is true exactly when the
sequence holds at least one `WriteHeader` call. -/
theorem firstResponseWriter_written_monotone {W : Type} [http.ResponseWriter W]
    (w : W) (b : Bool) (cs : List Call) :
    (∀ earlier later, cs = earlier ++ later →
      (perform earlier (⟨w, b⟩ : firstResponseWriter W)).written = true →
      (perform cs (⟨w, b⟩ : firstResponseWriter W)).written = true) ∧
    rises (firstResponseWriter.flags (⟨w, b⟩ : firstResponseWriter W) cs) ≤ 1 ∧
    ((perform cs (⟨w, false⟩ : firstResponseWriter W)).written = true
      ↔ ∃ status, Call.WriteHeader status ∈ cs) := by
  refine ⟨?_, flags_rises_le cs w b, ?_⟩
  · intro earlier later hcs hearly
    rw [hcs, perform_firstResponseWriter] at *
    simp only [List.any_append]
    simp only [] at hearly ⊢
    rw [← Bool.or_assoc, hearly]; rfl
  · rw [perform_firstResponseWriter]
    simp only [Bool.false_or]
    exact any_isWriteHeader_iff cs

/-- C11: serving any request with the empty chain `First()` invokes no handler
and makes no call on the underlying writer: whatever the writer, its state
after `ServeHTTP` is its state before, and the invocation log is empty. -/
theorem First_empty_is_noop {W : Type} [http.ResponseWriter W] (w : W) (r : Request) :
    FirstHandler.ServeHTTP (First []) w r = (w, []) ∧
    ∀ rec : Recorder, (FirstHandler.ServeHTTP (First []) rec r).1.calls = rec.calls ∧
      (FirstHandler.ServeHTTP (First []) rec r).1.header = rec.header :=
  ⟨rfl, fun _ => ⟨rfl, rfl⟩⟩

/-- C13: one call `firstResponseWriter.WriteHeader(s)` sets `written` to true and
makes the one call `WriteHeader(s)` on the embedded writer; any sequence of
calls made on a `firstResponseWriter` reaches the embedded writer unchanged and
in the same order, so `n` calls `WriteHeader(s1) .. WriteHeader(sn)` arrive as
those `n` calls. -/
theorem firstResponseWriter_forwards_calls {W : Type} [http.ResponseWriter W]
    (w : W) (b : Bool) (s : Int) (cs : List Call) :
    firstResponseWriter.WriteHeader (⟨w, b⟩ : firstResponseWriter W) s
      = ⟨http.ResponseWriter.WriteHeader w s, true⟩ ∧
    (perform cs (⟨w, b⟩ : firstResponseWriter W)).ResponseWriter = perform cs w ∧
    (∀ (rec : Recorder) (ss : List Int),
      (perform (ss.map Call.WriteHeader) (⟨rec, b⟩ : firstResponseWriter Recorder)).ResponseWriter.calls
        = rec.calls ++ ss.map Call.WriteHeader) ∧
    (∀ rec : Recorder,
      (perform cs (⟨rec, b⟩ : firstResponseWriter Recorder)).ResponseWriter.calls
        = rec.calls ++ cs) := by
  refine ⟨rfl, ?_, ?_, ?_⟩
  · rw [perform_firstResponseWriter]
  · intro rec ss
    rw [perform_firstResponseWriter, perform_Recorder]
  · intro rec
    rw [perform_firstResponseWriter, perform_Recorder]

/-! ## Chains that go on -/

/-- While no handler calls `WriteHeader` the loop goes on: after the first `n`
handlers it continues with the remaining ones on the writer they left. -/
theorem range_prefix (fh : List Handler) (r : Request) :
    ∀ (w : Recorder) (n : Nat),
      (∀ k, k < n → (FirstHandler.callsAt fh r w k).any Call.isWriteHeader = false) →
      FirstHandler.range fh (⟨w, false⟩ : firstResponseWriter Recorder) r
        = ((FirstHandler.range (fh.drop n)
              (⟨(FirstHandler.serveEach (fh.take n) w r).1, false⟩ :
                firstResponseWriter Recorder) r).1,
           (FirstHandler.serveEach (fh.take n) w r).2 ++
             (FirstHandler.range (fh.drop n)
              (⟨(FirstHandler.serveEach (fh.take n) w r).1, false⟩ :
                firstResponseWriter Recorder) r).2) := by
  induction fh with
  | nil => intro w n _; simp [FirstHandler.range, FirstHandler.serveEach]
  | cons h rest ih =>
    intro w n hn
    cases n with
    | zero => simp [FirstHandler.serveEach]
    | succ n =>
      have h0 : (h.calls r w.header).any Call.isWriteHeader = false := hn 0 (Nat.succ_pos n)
      have hrest := ih (h.ServeHTTP w r).1 n (fun k hk => hn (k + 1) (Nat.succ_lt_succ hk))
      rw [range_cons]
      simp only [h0, Bool.or_self, Bool.false_eq_true, if_false, List.take_succ_cons,
        List.drop_succ_cons, serveEach_cons]
      rw [hrest]
      simp [List.append_assoc]

/-- The chain form of `range_prefix`. -/
theorem ServeHTTP_prefix (fh : List Handler) (r : Request) (w : Recorder) (n : Nat)
    (hn : ∀ k, k < n → (FirstHandler.callsAt fh r w k).any Call.isWriteHeader = false) :
    FirstHandler.ServeHTTP (First fh) w r
      = ((FirstHandler.ServeHTTP (First (fh.drop n))
            (FirstHandler.serveEach (fh.take n) w r).1 r).1,
         (FirstHandler.serveEach (fh.take n) w r).2 ++
           (FirstHandler.ServeHTTP (First (fh.drop n))
            (FirstHandler.serveEach (fh.take n) w r).1 r).2) := by
  rw [FirstHandler_ServeHTTP_unfold, FirstHandler_ServeHTTP_unfold, range_prefix fh r w n hn]

/-- Serving a non-empty chain starts by serving its first handler. -/
theorem ServeHTTP_cons_events (h : Handler) (rest : List Handler) (w : Recorder) (r : Request) :
    ∃ evs, (FirstHandler.ServeHTTP (First (h :: rest)) w r).2
      = h.events r w.header ++ evs := by
  rw [FirstHandler_ServeHTTP_unfold, range_cons]
  have he : (h.ServeHTTP w r).2 = h.events r w.header := by rw [ServeHTTP_Recorder]
  cases hc : (h.calls r w.header).any Call.isWriteHeader with
  | true => exact ⟨[], by simp [he]⟩
  | false =>
    exact ⟨(FirstHandler.range rest
      (⟨(h.ServeHTTP w r).1, false⟩ : firstResponseWriter Recorder) r).2, by simp [he]⟩

theorem drop_of_getElem? (fh : List Handler) (i : Nat) (h : Handler) (hi : fh[i]? = some h) :
    fh.drop i = h :: fh.drop (i + 1) := by
  obtain ⟨hlt, heq⟩ := List.getElem?_eq_some.mp hi
  rw [List.drop_eq_getElem_cons hlt, heq]

/-- C18: the calls `Header` and `Write` on a `firstResponseWriter` leave `written`
as it is, so a handler whose calls hold no `WriteHeader`, whatever it writes,
leaves the flag false; when no handler up to position `i` calls `WriteHeader`,
`FirstHandler.ServeHTTP` does not stop there and goes on to invoke the next
handler on the same writer. -/
theorem FirstHandler_goes_on_after_Write (fh : List Handler) (r : Request) (w : Recorder)
    (i : Nat) (next : Handler)
    (hnone : ∀ k, k < i + 1 → (FirstHandler.callsAt fh r w k).any Call.isWriteHeader = false)
    (hnext : fh[i + 1]? = some next) :
    (∀ (W : Type) [http.ResponseWriter W] (w0 : firstResponseWriter W) (op : HeaderOp)
        (p : String),
      (http.ResponseWriter.HeaderApply w0 op).written = w0.written ∧
      (http.ResponseWriter.Write w0 p).written = w0.written) ∧
    (∀ w1 : Recorder, (perform (FirstHandler.callsAt fh r w i)
        (⟨w1, false⟩ : firstResponseWriter Recorder)).written = false) ∧
    FirstHandler.ServeHTTP (First fh) w r
      = ((FirstHandler.ServeHTTP (First (next :: fh.drop (i + 2)))
            (FirstHandler.serveEach (fh.take (i + 1)) w r).1 r).1,
         (FirstHandler.serveEach (fh.take (i + 1)) w r).2 ++
           (FirstHandler.ServeHTTP (First (next :: fh.drop (i + 2)))
            (FirstHandler.serveEach (fh.take (i + 1)) w r).1 r).2) ∧
    ∃ evs, (FirstHandler.ServeHTTP (First fh) w r).2
      = (FirstHandler.serveEach (fh.take (i + 1)) w r).2 ++
          next.events r (FirstHandler.serveEach (fh.take (i + 1)) w r).1.header ++ evs := by
  have hrun := ServeHTTP_prefix fh r w (i + 1) hnone
  rw [drop_of_getElem? fh (i + 1) next hnext] at hrun
  refine ⟨fun W _ w0 op p => ⟨rfl, rfl⟩, ?_, hrun, ?_⟩
  · intro w1
    rw [perform_firstResponseWriter]
    simp [hnone i (Nat.lt_succ_self i)]
  · obtain ⟨evs, hevs⟩ := ServeHTTP_cons_events next (fh.drop (i + 2))
      (FirstHandler.serveEach (fh.take (i + 1)) w r).1 r
    exact ⟨evs, by rw [hrun]; simp only []; rw [hevs, List.append_assoc]⟩

/-- C18 at a chain whose first handler writes body bytes without `WriteHeader`:
the next handler is invoked and its calls reach the writer after the bytes. -/
theorem FirstHandler_goes_on_after_Write_witness :
    (FirstHandler.ServeHTTP (First [sample.writer, sample.ok]) sample.fresh
        (sample.request "text/plain"))
      = (⟨[], [Call.Write "partial", Call.WriteHeader 200, Call.Write "ok"]⟩,
         [Event.ServeHTTP "writer" (sample.request "text/plain"),
          Event.ServeHTTP "ok" (sample.request "text/plain")]) := by
  have h := FirstHandler_goes_on_after_Write [sample.writer, sample.ok]
    (sample.request "text/plain") sample.fresh 0 sample.ok
    (by intro k hk; interval_cases k; decide) rfl
  rw [h.2.2.1]; decide

/-! ## The guard unit, call by call -/

/-- Every call of the header loop sets one name/value pair of the returned map. -/
theorem headerCalls_mem (header : Header) (c : Call) (hc : c ∈ ifHandler.headerCalls header) :
    ∃ name vs value, (name, vs) ∈ header ∧ value ∈ vs ∧ c = Call.Header (.Set name value) := by
  simp only [ifHandler.headerCalls, List.mem_flatMap, List.mem_map] at hc
  obtain ⟨entry, hentry, value, hvalue, hceq⟩ := hc
  exact ⟨entry.1, entry.2, value, hentry, hvalue, hceq.symm⟩

/-- C14: when the predicate fails, the calls the guard unit makes on its writer
are, in this order: the header sets for the returned name/value pairs, the set
of `Content-Type`, one `WriteHeader(status)`, and the write of the body; this is
so in the JSON and in the plain-text branch, and these are all the calls that
`If(f, h)` makes on the underlying writer. -/
theorem ifHandler_failure_call_order (f : Request → Header × Option Err) (h : Handler)
    (r : Request) (w : Recorder) (err : Err) (hf : (f r).2 = some err) :
    (ifHandler.ServeHTTP f w r).1.calls
      = w.calls ++ ifHandler.headerCalls (f r).1 ++
          [Call.Header
             (.Set "Content-Type" (if acceptJSON r then "application/json" else "text/plain")),
           Call.WriteHeader (err.Status.getD StatusInternalServerError),
           Call.Write (if acceptJSON r then jsonError err.Error else err.Error)] ∧
    (∀ c ∈ ifHandler.headerCalls (f r).1,
      ∃ name vs value, (name, vs) ∈ (f r).1 ∧ value ∈ vs ∧ c = Call.Header (.Set name value)) ∧
    (FirstHandler.ServeHTTP (If f h) w r).1.calls = (ifHandler.ServeHTTP f w r).1.calls := by
  refine ⟨?_, fun c hc => headerCalls_mem (f r).1 c hc, ?_⟩
  · rw [ifHandler_ServeHTTP_calls]
    simp [ifHandler.calls, hf]
  · rw [If_ServeHTTP_eq, hf]

/-- C14 at a failure with status 429 and one returned header, for a request that
accepts JSON and for one that asks for plain text. -/
theorem ifHandler_failure_call_order_witness :
    (ifHandler.ServeHTTP sample.rateLimited sample.fresh (sample.request "application/json")).1.calls
      = [Call.Header (.Set "Retry-After" "30"),
         Call.Header (.Set "Content-Type" "application/json"),
         Call.WriteHeader 429,
         Call.Write "\x7b\"error\":\"rate limited\"\x7d"] ∧
    (ifHandler.ServeHTTP sample.rateLimited sample.fresh (sample.request "text/plain")).1.calls
      = [Call.Header (.Set "Retry-After" "30"),
         Call.Header (.Set "Content-Type" "text/plain"),
         Call.WriteHeader 429,
         Call.Write "rate limited"] := by
  have hj := (ifHandler_failure_call_order sample.rateLimited sample.ok
    (sample.request "application/json") sample.fresh (.WithStatus "rate limited" 429) rfl).1
  have hp := (ifHandler_failure_call_order sample.rateLimited sample.ok
    (sample.request "text/plain") sample.fresh (.WithStatus "rate limited" 429) rfl).1
  exact ⟨by rw [hj]; decide, by rw [hp]; decide⟩

/-- C15: serving with `If(f, h)` calls the predicate once, and exactly one of two
outcomes follows, decided by the error the predicate returned: the error is nil,
the guard unit commits nothing and `h` is served next; or the error is non-nil,
the guard unit commits one status and the outcome is the guard unit's alone. -/
theorem If_decides_once (f : Request → Header × Option Err) (h : Handler)
    (r : Request) (w : Recorder) :
    (ifHandler.ServeHTTP f w r).2 = [Event.check r] ∧
    Xor'
      ((f r).2 = none ∧
        statuses (ifHandler.ServeHTTP f w r).1.calls = statuses w.calls ∧
        FirstHandler.ServeHTTP (If f h) w r
          = ((h.ServeHTTP (ifHandler.ServeHTTP f w r).1 r).1,
             Event.check r :: (h.ServeHTTP (ifHandler.ServeHTTP f w r).1 r).2))
      (∃ err, (f r).2 = some err ∧
        statuses (ifHandler.ServeHTTP f w r).1.calls
          = statuses w.calls ++ [err.Status.getD StatusInternalServerError] ∧
        FirstHandler.ServeHTTP (If f h) w r = ifHandler.ServeHTTP f w r) := by
  refine ⟨by rw [ifHandler_ServeHTTP_eq], ?_⟩
  cases hf : (f r).2 with
  | none =>
    refine Or.inl ⟨⟨rfl, ?_, ?_⟩, ?_⟩
    · rw [ifHandler_ServeHTTP_calls, statuses_append]
      simp [ifHandler.calls, hf, headerCalls_statuses]
    · rw [If_ServeHTTP_eq, hf]
    · rintro ⟨err, herr, _⟩
      exact absurd herr (by simp)
  | some err =>
    refine Or.inr ⟨⟨err, rfl, ?_, ?_⟩, ?_⟩
    · rw [ifHandler_ServeHTTP_calls, statuses_append]
      simp [ifHandler.calls, hf, statuses_append, headerCalls_statuses, statuses]
    · rw [If_ServeHTTP_eq, hf]
    · rintro ⟨hnone, _⟩
      exact absurd hnone (by simp)

/-- The flag of the loop records whether a `WriteHeader` call reached the
underlying writer during the loop. -/
theorem range_written (fh : List Handler) (r : Request) :
    ∀ (w : Recorder) (c : Bool), ∃ added,
      (FirstHandler.range fh (⟨w, c⟩ : firstResponseWriter Recorder) r).1.ResponseWriter.calls
        = w.calls ++ added ∧
      (FirstHandler.range fh (⟨w, c⟩ : firstResponseWriter Recorder) r).1.written
        = (c || added.any Call.isWriteHeader) := by
  induction fh with
  | nil => intro w c; exact ⟨[], by simp [FirstHandler.range]⟩
  | cons h rest ih =>
    intro w c
    rw [range_cons]
    cases hflag : (c || (h.calls r w.header).any Call.isWriteHeader) with
    | true =>
      refine ⟨h.calls r w.header, ?_, ?_⟩
      · simp [ServeHTTP_Recorder]
      · simp [hflag]
    | false =>
      obtain ⟨added, hcalls, hwritten⟩ := ih (h.ServeHTTP w r).1 false
      refine ⟨h.calls r w.header ++ added, ?_, ?_⟩
      · simp only [Bool.false_eq_true, if_false]
        rw [hcalls, ServeHTTP_Recorder]
        simp [List.append_assoc]
      · simp only [Bool.false_eq_true, if_false]
        rw [hwritten, List.any_append, ← Bool.or_assoc, hflag]

/-- A chain calls `WriteHeader` on the writer it is given exactly when its own
loop ends with `written` true. -/
theorem FirstHandler_calls_any (xs : List Handler) (r : Request) (w : Recorder) :
    ((Handler.FirstHandler xs).calls r w.header).any Call.isWriteHeader
      = (FirstHandler.range xs (⟨w, false⟩ : firstResponseWriter Recorder) r).1.written := by
  have hcalls : (Handler.FirstHandler xs).calls r w.header
      = (FirstHandler.probe xs r w.header false).1.ResponseWriter.calls := by
    simp [Handler.calls, Handler.ServeHTTP, FirstHandler.probe]
  have heq := FirstHandler_range_eq xs w false r
  have hh : http.ResponseWriter.Header w = w.header := rfl
  rw [hh] at heq
  obtain ⟨added, hadded, hwritten⟩ := range_written xs r (⟨w.header, []⟩ : Recorder) false
  rw [heq, hcalls]
  simp only [FirstHandler.probe] at hadded hwritten ⊢
  rw [hwritten, hadded]
  simp

/-- The loop over a concatenation: the second list is served only when the loop
over the first ends with `written` false. -/
theorem range_append (xs ys : List Handler) (r : Request) :
    ∀ (w : Recorder),
      FirstHandler.range (xs ++ ys) (⟨w, false⟩ : firstResponseWriter Recorder) r
        = if (FirstHandler.range xs (⟨w, false⟩ : firstResponseWriter Recorder) r).1.written
            = true then
            FirstHandler.range xs (⟨w, false⟩ : firstResponseWriter Recorder) r
          else
            ((FirstHandler.range ys
                (⟨(FirstHandler.range xs
                    (⟨w, false⟩ : firstResponseWriter Recorder) r).1.ResponseWriter, false⟩ :
                  firstResponseWriter Recorder) r).1,
             (FirstHandler.range xs (⟨w, false⟩ : firstResponseWriter Recorder) r).2 ++
               (FirstHandler.range ys
                (⟨(FirstHandler.range xs
                    (⟨w, false⟩ : firstResponseWriter Recorder) r).1.ResponseWriter, false⟩ :
                  firstResponseWriter Recorder) r).2) := by
  induction xs with
  | nil => intro w; simp [FirstHandler.range]
  | cons h rest ih =>
    intro w
    rw [List.cons_append, range_cons, range_cons]
    cases hflag : (h.calls r w.header).any Call.isWriteHeader with
    | true => simp
    | false =>
      simp only [Bool.or_self, Bool.false_eq_true, if_false]
      rw [ih (h.ServeHTTP w r).1]
      cases hrest : (FirstHandler.range rest
          (⟨(h.ServeHTTP w r).1, false⟩ : firstResponseWriter Recorder) r).1.written with
      | true => simp
      | false => simp [List.append_assoc]

/-- C16: nesting is transparent. Serving with `First(First(xs...), ys...)` leaves
the underlying writer in the same state and gives rise to the same invocations,
in the same order, as serving with the flat chain `First(xs ++ ys)`: the flag of
the outer chain's writer after the inner chain is the flag the inner chain ended
with. -/
theorem First_nested_eq_flat (xs ys : List Handler) (r : Request) (w : Recorder) :
    FirstHandler.ServeHTTP (First (Handler.FirstHandler (First xs) :: ys)) w r
      = FirstHandler.ServeHTTP (First (xs ++ ys)) w r ∧
    ((Handler.FirstHandler (First xs)).ServeHTTP
        (⟨w, false⟩ : firstResponseWriter Recorder) r).1.written
      = (FirstHandler.range xs (⟨w, false⟩ : firstResponseWriter Recorder) r).1.written := by
  have hinner : (Handler.FirstHandler xs).ServeHTTP w r
      = ((FirstHandler.range xs (⟨w, false⟩ : firstResponseWriter Recorder) r).1.ResponseWriter,
         (FirstHandler.range xs (⟨w, false⟩ : firstResponseWriter Recorder) r).2) := by
    simp [Handler.ServeHTTP]
  refine ⟨?_, ?_⟩
  · rw [FirstHandler_ServeHTTP_unfold, FirstHandler_ServeHTTP_unfold, range_append, First,
      range_cons, FirstHandler_calls_any, hinner]
    cases hflag : (FirstHandler.range xs
        (⟨w, false⟩ : firstResponseWriter Recorder) r).1.written with
    | true => simp
    | false => simp
  · rw [First, ServeHTTP_first, FirstHandler_calls_any]
    simp

/-! ## Headers along a chain -/

/-- A `Set` followed by a `Del` of the same header under another spelling leaves
nothing under it. -/
theorem Set_then_Del_other_spelling :
    Header.values (FirstHandler.ServeHTTP (First [sample.untag]) sample.fresh
        (sample.request "text/plain")).1.header "X-Tag" = [] := by
  decide

end tigertonic
